import Mathlib

/-!
# Verification of the mancala2 game engine and session seat logic

This file is a shallow embedding, in Lean 4, of the game engine of the
mancala2 repository (`src/index.ts`).  The engine keeps one combined
14-slot array `pits`: indices 0-5 are player 0's sowing pits, index 6 is
player 0's store, indices 7-12 are player 1's sowing pits, index 13 is
player 1's store.  JavaScript numbers that the program uses as integers
are modelled as `Int`; the in-place mutation of `board.pits` is modelled
by explicit state passing, and the function's two possible returns
(the updated board, or an error object) are modelled by `MoveResult`,
whose error constructor also records the state of the caller's board at
the moment of the early return (in the source every rejecting `return`
happens before any mutation, so that board is the unchanged input).

The seat-assignment logic of the HTTP layer (`/create` assigning the
creator to seat 0, and the `/game/:id/events` route assigning a yet
unseated identity to the empty slots of `playerSessions`) is embedded as
a small state machine `Session` with a reachability predicate.
-/

/-- `BoardState` mirrors the `BoardState` interface of `src/index.ts`:
a 14-slot `pits` array (stores embedded at indices 6 and 13), whose TS
element type `number` is modelled as `Int`; `turn` is `0 | 1` in TS,
modelled as `Int`; `winner` is `0 | 1 | null`, modelled as `Option Int`. -/
structure BoardState where
  pits : List Int
  turn : Int
  gameOver : Bool
  winner : Option Int
deriving Repr, DecidableEq

/-- Result of `makeMove`: either the updated board, or the error message
together with the state of the caller's board when the function returned
(the source mutates `board` in place; every rejection returns before any
mutation, which the embedding makes explicit by recording that state). -/
inductive MoveResult where
  | ok (b : BoardState)
  | err (msg : String) (b : BoardState)
deriving Repr, DecidableEq

/-- Array read `board.pits[i]`; all reads performed by the engine are in
range, the default 0 is never relevant on length-14 boards. -/
def getP (l : List Int) (i : Nat) : Int :=
  l.getD i 0

/-- `getInitialBoard` from `src/index.ts`. -/
def getInitialBoard : BoardState :=
  { pits := [4, 4, 4, 4, 4, 4, 0, 4, 4, 4, 4, 4, 4, 0]
    turn := 0
    gameOver := false
    winner := none }

/-- One advance of `currentPit` inside the sowing `while` loop:
`currentPit = (currentPit + 1) % 14`, then the two sequential store-skip
`if`s of the source (player 1 skips slot 6, player 0 skips slot 13). -/
def sowStep (player : Int) (currentPit : Nat) : Nat :=
  let c1 := (currentPit + 1) % 14
  let c2 := if player = 1 ∧ c1 = 6 then (c1 + 1) % 14 else c1
  if player = 0 ∧ c2 = 13 then (c2 + 1) % 14 else c2

/-- The sowing `while (seeds > 0)` loop.  The loop decrements `seeds` by
exactly one per iteration, so it runs `seeds.toNat` times; each
iteration advances `currentPit` with `sowStep` and deposits one seed
there.  Returns the pits after sowing and the final `currentPit`. -/
def sowLoop (player : Int) : Nat → Nat → List Int → List Int × Nat
  | 0, currentPit, pits => (pits, currentPit)
  | seeds + 1, currentPit, pits =>
    let c := sowStep player currentPit
    sowLoop player seeds c (pits.set c (getP pits c + 1))

/-- The mover's store slot as computed by the capture code:
`(player + 1) * 6 + player` (6 for player 0, 13 for player 1). -/
def storeIndex (player : Int) : Nat :=
  ((player + 1) * 6 + player).toNat

/-- The capture block of `makeMove`: if the last seed landed in the
mover's own row and that slot now holds exactly 1 seed, move the
contents of slot `13 - currentPit` plus the landed seed into the
mover's store and zero both slots; otherwise do nothing. -/
def captureStep (player rangeMin rangeMax : Int) (currentPit : Nat)
    (pits : List Int) : List Int :=
  if rangeMin ≤ (currentPit : Int) ∧ (currentPit : Int) < rangeMax ∧
      getP pits currentPit = 1 then
    let oppositePit := 13 - currentPit
    let capturedSeeds := getP pits oppositePit
    let pitsA := pits.set oppositePit 0
    let pitsB := pitsA.set (storeIndex player)
      (getP pitsA (storeIndex player) + (capturedSeeds + 1))
    pitsB.set currentPit 0
  else pits

/-- The tail of `makeMove` after sowing and capture: the game-over check
on slices `[0,6)` and `[7,13)`, the terminal sweep (note the source's
`board.pits.fill(0)`, which zeroes all 14 slots, stores included, before
the winner comparison), and otherwise the turn update with the source's
literal `currentPit === 14` test for player 1. -/
def finishMove (board : BoardState) (player : Int) (currentPit : Nat)
    (pits2 : List Int) : BoardState :=
  let player0PitsEmpty := (pits2.take 6).all (fun s => s == 0)
  let player1PitsEmpty := ((pits2.drop 7).take 6).all (fun s => s == 0)
  if player0PitsEmpty || player1PitsEmpty then
    let pits3 :=
      if player0PitsEmpty then
        pits2.set 13 (getP pits2 13 + ((pits2.drop 7).take 6).sum)
      else
        pits2.set 6 (getP pits2 6 + (pits2.take 6).sum)
    let pits4 := pits3.map (fun _ => (0 : Int))
    let winner : Option Int :=
      if getP pits4 6 > getP pits4 13 then some 0
      else if getP pits4 13 > getP pits4 6 then some 1
      else none
    { pits := pits4, turn := board.turn, gameOver := true, winner := winner }
  else
    let newTurn :=
      if ¬(player = 0 ∧ currentPit = 6) ∧ ¬(player = 1 ∧ currentPit = 14) then
        (if player = 0 then (1 : Int) else 0)
      else board.turn
    { pits := pits2, turn := newTurn, gameOver := board.gameOver
      winner := board.winner }

/-- The accepted-move path of `makeMove` (everything after the five
validation checks): empty the chosen pit, sow, capture, finish. -/
def acceptedBoard (board : BoardState) (pitIndex player : Int) : BoardState :=
  let seeds := getP board.pits pitIndex.toNat
  let pits0 := board.pits.set pitIndex.toNat 0
  let sown := sowLoop player seeds.toNat pitIndex.toNat pits0
  let rangeMin := player * 7
  let rangeMax := rangeMin + 6
  let pits2 := captureStep player rangeMin rangeMax sown.2 sown.1
  finishMove board player sown.2 pits2

/-- `makeMove` from `src/index.ts`, with the five rejecting early
returns in source order followed by the accepted-move path. -/
def makeMove (board : BoardState) (pitIndex player : Int) : MoveResult :=
  if board.gameOver then .err "Game is over." board
  else if player ≠ board.turn then .err "Not your turn." board
  else if pitIndex < 0 ∨ pitIndex > 12 ∨ pitIndex = 6 then
    .err "Invalid pit index." board
  else if ¬(pitIndex ≥ player * 7 ∧ pitIndex < player * 7 + 6) then
    .err "Cannot move from opponents pit." board
  else if getP board.pits pitIndex.toNat = 0 then .err "Pit is empty." board
  else .ok (acceptedBoard board pitIndex player)

/-- Run a list of `(pitIndex, player)` requests from a starting board,
requiring every one of them to be accepted. -/
def runMoves : BoardState → List (Int × Int) → Option BoardState
  | b, [] => some b
  | b, (i, p) :: rest =>
    match makeMove b i p with
    | .ok b2 => runMoves b2 rest
    | .err _ _ => none

/-- The spec's ordered list of rejection conditions (§4.1), written from
the spec's words: (1) game over, (2) wrong turn, (3) index not one of
the 12 valid sowing pits / a store slot, (4) index not in the mover's
own row, (5) chosen pit empty; first match wins.  Compared against
`makeMove`'s literal check chain in the C7 theorem. -/
def specSowingPits : List Int := [0, 1, 2, 3, 4, 5, 7, 8, 9, 10, 11, 12]

/-- The mover's own row of sowing pits, in the spec's terms: slots 0-5
for player 0, slots 7-12 for player 1, nothing for any other player. -/
def specOwnRow (player : Int) : List Int :=
  if player = 0 then [0, 1, 2, 3, 4, 5]
  else if player = 1 then [7, 8, 9, 10, 11, 12]
  else []

/-- First matching rejection reason per the spec's §4.1 ordered list,
or `none` when the move is accepted. -/
def firstRejection (board : BoardState) (pitIndex player : Int) :
    Option String :=
  if board.gameOver then some "Game is over."
  else if player ≠ board.turn then some "Not your turn."
  else if pitIndex ∉ specSowingPits then some "Invalid pit index."
  else if pitIndex ∉ specOwnRow player then some "Cannot move from opponents pit."
  else if getP board.pits pitIndex.toNat = 0 then some "Pit is empty."
  else none

/-! ## Session seat assignment (`playerSessions`)

The server keeps `playerSessions: [string | null, string | null]` per
game.  `/create` builds `[null, null]` and immediately assigns the
creator's fresh session id to slot 0.  The `/game/:id/events` route, for
a session id not already included, loops over both slots and writes the
id into every `null` slot (the source loop has no break).  The move
route authorizes `player = playerSessions.indexOf(sessionId)` and
rejects when it is `-1`.  No other code writes `playerSessions`. -/

/-- The two seat slots of a game's `playerSessions` array. -/
structure Session where
  seat0 : Option String
  seat1 : Option String
deriving Repr, DecidableEq

/-- `/create`: `playerSessions = [null, null]` followed by
`playerSessions[0] = sessionId` for the creator's fresh session id. -/
def createSession (creator : String) : Session :=
  { seat0 := some creator, seat1 := none }

/-- `game.playerSessions.includes(sessionId)`. -/
def seatedIn (s : Session) (id : String) : Bool :=
  s.seat0 == some id || s.seat1 == some id

/-- The seat-filling block of the `/game/:id/events` route: if the id is
not already seated, write it into every currently null slot (the source
iterates over both slots without breaking). -/
def eventsJoin (s : Session) (id : String) : Session :=
  if seatedIn s id then s
  else
    { seat0 := if s.seat0 = none then some id else s.seat0
      seat1 := if s.seat1 = none then some id else s.seat1 }

/-- `game.playerSessions.indexOf(sessionId)`, used by the move route;
`-1` means the request is rejected as unauthorized. -/
def sessionIndexOf (s : Session) (id : String) : Int :=
  if s.seat0 = some id then 0 else if s.seat1 = some id then 1 else -1

/-- Seat states reachable by the server: a session is created by
`/create` (creator in seat 0) and is afterwards modified only by the
seat-filling block of the events route. -/
inductive SessionReachable : Session → Prop
  | create (c : String) : SessionReachable (createSession c)
  | join (s : Session) (id : String) :
      SessionReachable s → SessionReachable (eventsJoin s id)

/-- Zero or more further events-route joins starting from `s`. -/
inductive JoinReach : Session → Session → Prop
  | refl (s : Session) : JoinReach s s
  | step (s t : Session) (id : String) :
      JoinReach s t → JoinReach s (eventsJoin t id)

/-! ## Concrete boards and move sequences used in the theorems -/

/-- A ten-move game from the initial board that ends the game: after the
last move player 0's row is empty, the sweep credits player 1, and the
source then zeroes all 14 slots. -/
def fullGameSeq : List (Int × Int) :=
  [(0, 0), (8, 1), (1, 0), (2, 0), (7, 1), (3, 0), (8, 1), (4, 0),
    (7, 1), (5, 0)]

/-- The first nine moves of `fullGameSeq` (stopping just before the
game-ending move). -/
def fullGameFirstNine : List (Int × Int) :=
  [(0, 0), (8, 1), (1, 0), (2, 0), (7, 1), (3, 0), (8, 1), (4, 0), (7, 1)]

/-- The board reached by `fullGameFirstNine`: player 0 to move, one seed
sequence `[0,0,0,0,0,8]` on player 0's side. -/
def preEndBoard : BoardState :=
  { pits := [0, 0, 0, 0, 0, 8, 4, 0, 2, 10, 9, 8, 7, 0]
    turn := 0, gameOver := false, winner := none }

/-- Board exhibiting a capture whose landing pit is player 0's pit 0, so
the captured slot `13 - 0` is player 1's store (which holds 5 seeds). -/
def storeCaptureBoard : BoardState :=
  { pits := [0, 4, 4, 4, 4, 8, 0, 4, 4, 4, 4, 4, 4, 5]
    turn := 0, gameOver := false, winner := none }

/-- Board where player 0 sowing pit 5 (one seed into the store) empties
player 0's row and ends the game with store totals 21 and 27. -/
def endingWitnessBoard : BoardState :=
  { pits := [0, 0, 0, 0, 0, 1, 20, 0, 0, 0, 0, 0, 0, 27]
    turn := 0, gameOver := false, winner := none }

/-! ## Helper lemmas about `getP` and the sowing loop -/

lemma getP_set_self (l : List Int) (i : Nat) (v : Int) (h : i < l.length) :
    getP (l.set i v) i = v := by
  unfold getP
  rw [List.getD_eq_getElem?_getD, List.getElem?_set_self h]
  rfl

lemma getP_set_ne (l : List Int) (i j : Nat) (v : Int) (h : i ≠ j) :
    getP (l.set i v) j = getP l j := by
  unfold getP
  rw [List.getD_eq_getElem?_getD, List.getElem?_set_ne h,
    ← List.getD_eq_getElem?_getD]

lemma getP_map_zero (l : List Int) (i : Nat) :
    getP (l.map (fun _ => (0 : Int))) i = 0 := by
  unfold getP
  rw [List.getD_eq_getElem?_getD, List.getElem?_map]
  cases l[i]? <;> rfl

lemma getP_nonneg (l : List Int) (i : Nat) (h : ∀ x ∈ l, 0 ≤ x) :
    0 ≤ getP l i := by
  unfold getP
  rw [List.getD_eq_getElem?_getD]
  cases hg : l[i]? with
  | none => exact le_refl 0
  | some a => exact h a (List.getElem?_mem hg)

lemma nonneg_set (l : List Int) (i : Nat) (v : Int)
    (hl : ∀ x ∈ l, 0 ≤ x) (hv : 0 ≤ v) : ∀ x ∈ l.set i v, 0 ≤ x := by
  intro x hx
  rcases List.mem_or_eq_of_mem_set hx with h | h
  · exact hl x h
  · exact h ▸ hv

/-- The board returned on acceptance, `none` on rejection; used to state
facts about the accepted result of a concrete call. -/
def okBoard? : MoveResult → Option BoardState
  | .ok b => some b
  | .err _ _ => none

lemma sowStep_lt (player : Int) (c : Nat) : sowStep player c < 14 := by
  dsimp only [sowStep]
  split_ifs <;> omega

lemma sowLoop_length (player : Int) (seeds c : Nat) (pits : List Int) :
    (sowLoop player seeds c pits).1.length = pits.length := by
  induction seeds generalizing c pits with
  | zero => rfl
  | succ n ih =>
    rw [sowLoop, ih]
    exact List.length_set ..

lemma sowLoop_snd_lt (player : Int) (seeds c : Nat) (pits : List Int)
    (hc : c < 14) : (sowLoop player seeds c pits).2 < 14 := by
  induction seeds generalizing c pits with
  | zero => exact hc
  | succ n ih => exact ih _ _ (sowStep_lt player c)

lemma sowLoop_nonneg (player : Int) (seeds c : Nat) (pits : List Int)
    (h : ∀ x ∈ pits, 0 ≤ x) : ∀ x ∈ (sowLoop player seeds c pits).1, 0 ≤ x := by
  induction seeds generalizing c pits with
  | zero => exact h
  | succ n ih =>
    refine ih _ _ (nonneg_set _ _ _ h ?_)
    have := getP_nonneg pits (sowStep player c) h
    omega

lemma getP_replicate_zero (n i : Nat) :
    getP (List.replicate n (0 : Int)) i = 0 := by
  unfold getP
  rw [List.getD_eq_getElem?_getD, List.getElem?_replicate]
  split <;> rfl

/-- Case analysis on the tail of an accepted move: either the game-over
check fails (board flags and the sown pits pass through unchanged), or
it fires, `gameOver` is set, and — because the winner comparison runs
after `fill(0)` — the winner is `none`. -/
lemma finishMove_spec (b : BoardState) (p : Int) (c : Nat) (pits2 : List Int) :
    ((finishMove b p c pits2).gameOver = b.gameOver ∧
      (finishMove b p c pits2).winner = b.winner ∧
      (finishMove b p c pits2).pits = pits2) ∨
    ((finishMove b p c pits2).gameOver = true ∧
      (finishMove b p c pits2).winner = none) := by
  dsimp only [finishMove]
  split
  · right
    refine ⟨rfl, ?_⟩
    simp [getP_map_zero, getP_replicate_zero]
  · left
    exact ⟨rfl, rfl, rfl⟩

/-! ## Theorems for the claims -/

/-- C8 (counterexample): the spec's concrete opening scenario fails on
the code.  Player 0 sowing pit 2 from the initial board deposits the
fourth seed into player 0's own store (slot 6), so the claimed outcome
"both stores still 0 and turn flipped to 1" is false: the actual result
has store slot 6 holding 1 and, by the extra-turn rule, turn still 0. -/
theorem opening_move_claim_false :
    (okBoard? (makeMove getInitialBoard 2 0)).map
        (fun b => (getP b.pits 6, b.turn)) ≠ some (0, 1) := by
  decide

/-- C8 (amended): from the initial board, player 0 on pit 2 yields
sowing pits `[4,4,0,5,5,5]` and `[4,4,4,4,4,4]`, player 0's store
holding 1 and player 1's store 0; the landing pit is slot 6 (player 0's
own store, so no capture), and turn remains 0 (extra turn). -/
theorem opening_move_actual :
    makeMove getInitialBoard 2 0 =
      .ok { pits := [4, 4, 0, 5, 5, 5, 1, 4, 4, 4, 4, 4, 4, 0]
            turn := 0, gameOver := false, winner := none } ∧
    (sowLoop 0 (getP getInitialBoard.pits 2).toNat 2
        (getInitialBoard.pits.set 2 0)).2 = 6 := by
  constructor
  · decide
  · decide

/-- C1: seed conservation is violated by game-ending moves.  The ten
moves of `fullGameSeq` are all accepted starting from the initial
board; after the first nine the 14 slots still sum to 48, but the tenth
move ends the game and the source's `board.pits.fill(0)` zeroes all 14
slots, stores included, leaving a total of 0 instead of 48. -/
theorem conservation_broken_by_terminal_fill :
    (runMoves getInitialBoard fullGameFirstNine).map (fun b => b.pits.sum) =
      some 48 ∧
    (runMoves getInitialBoard fullGameSeq).map
        (fun b => (b.pits.sum, b.gameOver)) = some (0, true) := by
  constructor
  · decide
  · decide

/-- C5: the terminal sweep does not retain the store totals.  The nine
accepted moves of `fullGameFirstNine` reach `preEndBoard` (48 seeds on the
board); the game-ending tenth move computes post-sweep stores 6 and 42
but then zeroes every slot, so the returned board has both store slots
at 0 — the stores do not retain their post-sweep totals. -/
theorem terminal_sweep_zeroes_stores :
    runMoves getInitialBoard fullGameFirstNine = some preEndBoard ∧
    preEndBoard.pits.sum = 48 ∧
    makeMove preEndBoard 5 0 =
      .ok { pits := List.replicate 14 0, turn := 0, gameOver := true
            winner := none } := by
  refine ⟨by decide, by decide, by decide⟩

/-- C4: player 1 never receives the extra turn.  From the initial board,
player 0 sows pit 0 (turn passes to player 1); player 1 then sows pit 9,
whose four seeds land exactly in player 1's own store, slot 13
(`storeIndex 1 = 13`).  The claim says turn must stay 1, but the source
tests `currentPit === 14` — a value `currentPit` can never take — so the
turn flips to 0. -/
theorem player_one_extra_turn_missed :
    makeMove getInitialBoard 0 0 =
      .ok { pits := [0, 5, 5, 5, 5, 4, 0, 4, 4, 4, 4, 4, 4, 0]
            turn := 1, gameOver := false, winner := none } ∧
    storeIndex 1 = 13 ∧
    (sowLoop 1 4 9
        (([0, 5, 5, 5, 5, 4, 0, 4, 4, 4, 4, 4, 4, 0] : List Int).set 9 0)).2 =
      13 ∧
    (okBoard? (makeMove { pits := [0, 5, 5, 5, 5, 4, 0, 4, 4, 4, 4, 4, 4, 0]
                          turn := 1, gameOver := false, winner := none } 9 1)).map
        (fun b => (b.turn, b.gameOver)) = some (0, false) := by
  refine ⟨by decide, by decide, by decide, by decide⟩

/-- C3 (counterexample): a capture can take a store slot.  On
`storeCaptureBoard`, player 0 sows pit 5 (8 seeds); the last seed lands
in pit 0, which then holds exactly 1 seed, and the code captures slot
`13 - 0 = 13` — player 1's store, holding 5 seeds — moving its contents
into player 0's store.  The claim's "never a store slot" is false, and
under either reading of "directly opposite" the opposing sowing pit
12 is left untouched while store slot 13 is emptied. -/
theorem capture_into_store_counterexample :
    getP storeCaptureBoard.pits 13 = 5 ∧
    getP storeCaptureBoard.pits 6 = 0 ∧
    (okBoard? (makeMove storeCaptureBoard 5 0)).map
        (fun b => (getP b.pits 13, getP b.pits 6, getP b.pits 12,
          getP b.pits 0, b.gameOver)) = some (0, 7, 5, 0, false) := by
  refine ⟨by decide, by decide, by decide⟩

/-- Every accepted move passes the game-over check and produces exactly
the `finishMove` of some sown-and-captured pit list. -/
lemma makeMove_ok_eq (board : BoardState) (pitIndex player : Int)
    (b : BoardState) (hok : makeMove board pitIndex player = .ok b) :
    board.gameOver = false ∧ ∃ c pits2, b = finishMove board player c pits2 := by
  have hgo : board.gameOver = false := by
    cases hgo : board.gameOver
    · rfl
    · unfold makeMove at hok
      rw [hgo] at hok
      simp at hok
  refine ⟨hgo, ?_⟩
  unfold makeMove at hok
  split_ifs at hok <;>
    first
      | exact MoveResult.noConfusion hok
      | (injection hok with hb; exact ⟨_, _, hb.symm⟩)

/-- C6: no mutation on rejection.  Whenever `makeMove` rejects, the
board it leaves behind (recorded in the `err` constructor as the state
of the caller's board at the early return) is the input board: every
rejecting return in the source happens before the first mutation. -/
theorem rejection_leaves_board_unchanged (board : BoardState)
    (pitIndex player : Int) (msg : String) (b2 : BoardState)
    (h : makeMove board pitIndex player = .err msg b2) : b2 = board := by
  unfold makeMove at h
  split_ifs at h <;>
    first
      | (injection h with h1 h2; exact h2.symm)
      | exact MoveResult.noConfusion h

/-- C6 witness: a concrete rejected call (store slot 6 as pit index)
leaves the initial board unchanged. -/
theorem rejection_leaves_board_unchanged_witness :
    getInitialBoard = getInitialBoard :=
  rejection_leaves_board_unchanged getInitialBoard 6 0 "Invalid pit index."
    getInitialBoard (by decide)

/-- C2: the winner field is always `none` on every game-ending accepted
move, because the source zeroes the whole `pits` array (stores included)
with `fill(0)` and only then compares `pits[6]` with `pits[13]`.  The
claim's "winner is whichever store total is strictly larger" is the
spec's intent and the code a slip (the comparison right after the wipe
is otherwise dead code). -/
theorem winner_always_none_when_game_ends (board : BoardState)
    (pitIndex player : Int) (b : BoardState)
    (hok : makeMove board pitIndex player = .ok b)
    (hover : b.gameOver = true) : b.winner = none := by
  obtain ⟨hgo, c, pits2, hb⟩ := makeMove_ok_eq board pitIndex player b hok
  subst hb
  rcases finishMove_spec board player c pits2 with ⟨hg, hw, _⟩ | ⟨hg, hw⟩
  · rw [hg, hgo] at hover
    exact Bool.noConfusion hover
  · exact hw

/-- C2 witness: on `endingWitnessBoard` the move `(5, player 0)` ends
the game with pre-wipe store totals 21 and 27, yet the winner is
`none`. -/
theorem winner_always_none_when_game_ends_witness :
    ({ pits := List.replicate 14 0, turn := 0, gameOver := true
       winner := none } : BoardState).winner = none :=
  winner_always_none_when_game_ends endingWitnessBoard 5 0
    { pits := List.replicate 14 0, turn := 0, gameOver := true
      winner := none } (by decide) (by decide)

lemma not_mem_sowing_iff (i : Int) :
    i ∉ specSowingPits ↔ (i < 0 ∨ i > 12 ∨ i = 6) := by
  simp only [specSowingPits, List.mem_cons, List.not_mem_nil, or_false]
  omega

lemma not_mem_ownRow_iff (i p : Int) (hi : i ∈ specSowingPits) :
    i ∉ specOwnRow p ↔ ¬(i ≥ p * 7 ∧ i < p * 7 + 6) := by
  simp only [specSowingPits, List.mem_cons, List.not_mem_nil, or_false] at hi
  unfold specOwnRow
  split_ifs with hp0 hp1
  · subst hp0
    simp only [List.mem_cons, List.not_mem_nil, or_false]
    omega
  · subst hp1
    simp only [List.mem_cons, List.not_mem_nil, or_false]
    omega
  · simp only [List.not_mem_nil, not_false_iff, true_iff]
    omega

/-- `makeMove`'s literal check chain agrees, on every input, with the
spec's ordered rejection list `firstRejection`. -/
lemma makeMove_eq_rejection_match (board : BoardState) (pitIndex player : Int) :
    makeMove board pitIndex player =
      match firstRejection board pitIndex player with
      | some m => .err m board
      | none => .ok (acceptedBoard board pitIndex player) := by
  unfold makeMove firstRejection
  by_cases h1 : board.gameOver = true
  · rw [if_pos h1, if_pos h1]
  · rw [if_neg h1, if_neg h1]
    by_cases h2 : player ≠ board.turn
    · rw [if_pos h2, if_pos h2]
    · rw [if_neg h2, if_neg h2]
      by_cases h3 : pitIndex ∈ specSowingPits
      · rw [if_neg (not_not_intro h3),
          if_neg (fun hc => (not_mem_sowing_iff pitIndex).mpr hc h3)]
        by_cases h4 : pitIndex ∈ specOwnRow player
        · rw [if_neg (not_not_intro h4),
            if_neg (fun hnc => (not_mem_ownRow_iff pitIndex player h3).mpr hnc h4)]
          by_cases h5 : getP board.pits pitIndex.toNat = 0
          · rw [if_pos h5, if_pos h5]
          · rw [if_neg h5, if_neg h5]
        · rw [if_pos h4, if_pos ((not_mem_ownRow_iff pitIndex player h3).mp h4)]
      · rw [if_pos h3, if_pos ((not_mem_sowing_iff pitIndex).mp h3)]

/-- C7: rejection totality and precedence.  `makeMove` is a total
function (the embedding is a Lean function, mirroring that the source
never throws): on every input it returns either the classified
rejection given by the spec's five ordered conditions — first match
wins, as computed by `firstRejection` — or the updated board of the
accepted path. -/
theorem makeMove_rejection_totality_and_order (board : BoardState)
    (pitIndex player : Int) :
    makeMove board pitIndex player =
      match firstRejection board pitIndex player with
      | some m => .err m board
      | none => .ok (acceptedBoard board pitIndex player) :=
  makeMove_eq_rejection_match board pitIndex player

/-- Acceptance by the spec-side check list unpacks into the five facts
the later stages rely on. -/
lemma accepted_facts (board : BoardState) (pitIndex player : Int)
    (h : firstRejection board pitIndex player = none) :
    board.gameOver = false ∧ player = board.turn ∧
      pitIndex ∈ specSowingPits ∧ pitIndex ∈ specOwnRow player ∧
      getP board.pits pitIndex.toNat ≠ 0 := by
  unfold firstRejection at h
  by_cases h1 : board.gameOver = true
  · rw [if_pos h1] at h
    exact Option.noConfusion h
  · rw [if_neg h1] at h
    by_cases h2 : player ≠ board.turn
    · rw [if_pos h2] at h
      exact Option.noConfusion h
    · rw [if_neg h2] at h
      by_cases h3 : pitIndex ∉ specSowingPits
      · rw [if_pos h3] at h
        exact Option.noConfusion h
      · rw [if_neg h3] at h
        by_cases h4 : pitIndex ∉ specOwnRow player
        · rw [if_pos h4] at h
          exact Option.noConfusion h
        · rw [if_neg h4] at h
          by_cases h5 : getP board.pits pitIndex.toNat = 0
          · rw [if_pos h5] at h
            exact Option.noConfusion h
          · exact ⟨by simpa using h1, not_not.mp h2, not_not.mp h3,
              not_not.mp h4, h5⟩

lemma makeMove_of_accepted (board : BoardState) (pitIndex player : Int)
    (h : firstRejection board pitIndex player = none) :
    makeMove board pitIndex player = .ok (acceptedBoard board pitIndex player) := by
  rw [makeMove_eq_rejection_match, h]

/-- C3 (amended): exact behaviour of the capture stage of `makeMove`.
For an accepted move, writing `sown` for the sowing result and `sown.2`
for the landing slot: the accepted result of `makeMove` is exactly
`finishMove` applied to the capture stage's output `pits2`; if the
landing slot is in the mover's own row and holds exactly 1 seed, the
mover's store gains (prior count of slot `13 - landing` + 1), slot
`13 - landing` and the landing slot become 0, every other slot is
untouched — and the captured slot `13 - landing` is a store slot
exactly when the landing slot is 0 or 7 (otherwise it is a sowing pit
of the opposing row); a landing outside the mover's row or on more than
1 seed captures nothing. -/
theorem capture_step_exact (board : BoardState) (pitIndex player : Int)
    (hlen : board.pits.length = 14)
    (hacc : firstRejection board pitIndex player = none)
    (sown : List Int × Nat)
    (hsown : sown = sowLoop player (getP board.pits pitIndex.toNat).toNat
      pitIndex.toNat (board.pits.set pitIndex.toNat 0))
    (pits2 : List Int)
    (hpits2 : pits2 = captureStep player (player * 7) (player * 7 + 6)
      sown.2 sown.1) :
    makeMove board pitIndex player = .ok (finishMove board player sown.2 pits2) ∧
    (player * 7 ≤ (sown.2 : Int) ∧ (sown.2 : Int) < player * 7 + 6 ∧
        getP sown.1 sown.2 = 1 →
      getP pits2 (storeIndex player) =
          getP sown.1 (storeIndex player) + getP sown.1 (13 - sown.2) + 1 ∧
      getP pits2 (13 - sown.2) = 0 ∧
      getP pits2 sown.2 = 0 ∧
      (∀ j, j < 14 → j ≠ storeIndex player → j ≠ 13 - sown.2 → j ≠ sown.2 →
        getP pits2 j = getP sown.1 j) ∧
      ((13 - sown.2 = 13 ∨ 13 - sown.2 = 6) ↔ (sown.2 = 0 ∨ sown.2 = 7))) ∧
    (¬(player * 7 ≤ (sown.2 : Int) ∧ (sown.2 : Int) < player * 7 + 6 ∧
        getP sown.1 sown.2 = 1) →
      pits2 = sown.1) := by
  obtain ⟨hgo, hturn, hmem, hrow, hne⟩ := accepted_facts board pitIndex player hacc
  have hpib : 0 ≤ pitIndex ∧ pitIndex ≤ 12 := by
    simp only [specSowingPits, List.mem_cons, List.not_mem_nil, or_false] at hmem
    omega
  have hpn : pitIndex.toNat < 14 := by omega
  have hlen1 : sown.1.length = 14 := by
    rw [hsown, sowLoop_length, List.length_set, hlen]
  have hclt : sown.2 < 14 := by
    rw [hsown]
    exact sowLoop_snd_lt _ _ _ _ hpn
  refine ⟨?_, ?_, ?_⟩
  · rw [makeMove_of_accepted board pitIndex player hacc]
    subst hpits2
    subst hsown
    rfl
  · intro hland
    have hp : player = 0 ∨ player = 1 := by omega
    have hkey : storeIndex player ≠ sown.2 ∧ storeIndex player ≠ 13 - sown.2 ∧
        sown.2 ≠ 13 - sown.2 ∧ storeIndex player < 14 := by
      rcases hp with h | h <;> subst h <;>
        · simp only [storeIndex] at *
          omega
    have heq : pits2 = ((sown.1.set (13 - sown.2) 0).set (storeIndex player)
        (getP (sown.1.set (13 - sown.2) 0) (storeIndex player) +
          (getP sown.1 (13 - sown.2) + 1))).set sown.2 0 := by
      rw [hpits2]
      unfold captureStep
      rw [if_pos ⟨hland.1, hland.2.1, hland.2.2⟩]
    have hlA : (13 : Nat) - sown.2 < sown.1.length := by omega
    have hlB : storeIndex player < (sown.1.set (13 - sown.2) 0).length := by
      rw [List.length_set, hlen1]
      exact hkey.2.2.2
    have hlC : sown.2 <
        ((sown.1.set (13 - sown.2) 0).set (storeIndex player)
          (getP (sown.1.set (13 - sown.2) 0) (storeIndex player) +
            (getP sown.1 (13 - sown.2) + 1))).length := by
      rw [List.length_set, List.length_set, hlen1]
      exact hclt
    refine ⟨?_, ?_, ?_, ?_, ?_⟩
    · rw [heq, getP_set_ne _ _ _ _ (Ne.symm hkey.1),
        getP_set_self _ _ _ hlB, getP_set_ne _ _ _ _ (Ne.symm hkey.2.1)]
      ring
    · rw [heq, getP_set_ne _ _ _ _ hkey.2.2.1,
        getP_set_ne _ _ _ _ hkey.2.1, getP_set_self _ _ _ hlA]
    · rw [heq, getP_set_self _ _ _ hlC]
    · intro j hj hjs hjo hjc
      rw [heq, getP_set_ne _ _ _ _ (Ne.symm hjc),
        getP_set_ne _ _ _ _ (Ne.symm hjs), getP_set_ne _ _ _ _ (Ne.symm hjo)]
    · omega
  · intro hnland
    rw [hpits2]
    unfold captureStep
    rw [if_neg hnland]

/-- C3 witness: the capture facts instantiated on `storeCaptureBoard`
(player 0, pit 5, landing slot 0): the captured slot `13 - 0 = 13` is
zeroed by the capture stage. -/
theorem capture_step_exact_witness :
    getP (captureStep 0 (0 * 7) (0 * 7 + 6)
        (sowLoop 0 (getP storeCaptureBoard.pits (5 : Int).toNat).toNat
          (5 : Int).toNat (storeCaptureBoard.pits.set (5 : Int).toNat 0)).2
        (sowLoop 0 (getP storeCaptureBoard.pits (5 : Int).toNat).toNat
          (5 : Int).toNat (storeCaptureBoard.pits.set (5 : Int).toNat 0)).1)
      (13 - (sowLoop 0 (getP storeCaptureBoard.pits (5 : Int).toNat).toNat
        (5 : Int).toNat (storeCaptureBoard.pits.set (5 : Int).toNat 0)).2) = 0 := by
  have h := capture_step_exact storeCaptureBoard 5 0 (by decide) (by decide)
    _ rfl _ rfl
  exact (h.2.1 ⟨by decide, by decide, by decide⟩).2.1

lemma captureStep_nonneg (player rangeMin rangeMax : Int) (c : Nat)
    (pits : List Int) (h : ∀ x ∈ pits, 0 ≤ x) :
    ∀ x ∈ captureStep player rangeMin rangeMax c pits, 0 ≤ x := by
  unfold captureStep
  split
  · refine nonneg_set _ _ _ (nonneg_set _ _ _ (nonneg_set _ _ _ h le_rfl) ?_)
      le_rfl
    have h1 := getP_nonneg (pits.set (13 - c) 0) (storeIndex player)
      (nonneg_set _ _ _ h le_rfl)
    have h2 := getP_nonneg pits (13 - c) h
    omega
  · exact h

lemma finishMove_nonneg (board : BoardState) (player : Int) (c : Nat)
    (pits2 : List Int) (h : ∀ x ∈ pits2, 0 ≤ x) :
    ∀ x ∈ (finishMove board player c pits2).pits, 0 ≤ x := by
  dsimp only [finishMove]
  split
  · intro x hx
    obtain ⟨a, _, hax⟩ := List.mem_map.mp hx
    omega
  · exact h

/-- C10: `makeMove` never drives a slot negative.  On any board whose
14 slots are non-negative, every accepted move returns a board whose
slots are all non-negative: sowing only increments, capture writes 0s
and adds a non-negative amount to the store, and the terminal sweep
adds non-negative sums before zeroing. -/
theorem makeMove_preserves_nonneg (board : BoardState) (pitIndex player : Int)
    (b : BoardState) (hlen : board.pits.length = 14)
    (hnn : ∀ x ∈ board.pits, 0 ≤ x)
    (hok : makeMove board pitIndex player = .ok b) :
    ∀ x ∈ b.pits, 0 ≤ x := by
  have hb : b = acceptedBoard board pitIndex player := by
    unfold makeMove at hok
    split_ifs at hok <;>
      first
        | exact MoveResult.noConfusion hok
        | (injection hok with hb2; exact hb2.symm)
  subst hb
  dsimp only [acceptedBoard]
  exact finishMove_nonneg _ _ _ _
    (captureStep_nonneg _ _ _ _ _
      (sowLoop_nonneg _ _ _ _ (nonneg_set _ _ _ hnn le_rfl)))

/-- C10 witness: the non-negativity theorem applied to the concrete
opening move (pit 2 by player 0 from the initial board), read back at
the store slot 6 of the resulting board. -/
theorem makeMove_preserves_nonneg_witness :
    (0 : Int) ≤ getP [4, 4, 0, 5, 5, 5, 1, 4, 4, 4, 4, 4, 4, 0] 6 := by
  have h := makeMove_preserves_nonneg getInitialBoard 2 0
    { pits := [4, 4, 0, 5, 5, 5, 1, 4, 4, 4, 4, 4, 4, 0]
      turn := 0, gameOver := false, winner := none }
    (by decide) (by decide) (by decide)
  exact h (getP [4, 4, 0, 5, 5, 5, 1, 4, 4, 4, 4, 4, 4, 0] 6) (by decide)

lemma reachable_seat0_some (s : Session) (h : SessionReachable s) :
    s.seat0 ≠ none := by
  induction h with
  | create c => exact fun hc => Option.noConfusion hc
  | join s id _ ih =>
    by_cases hj : seatedIn s id = true
    · unfold eventsJoin
      rw [if_pos hj]
      exact ih
    · unfold eventsJoin
      rw [if_neg hj]
      show (if s.seat0 = none then some id else s.seat0) ≠ none
      rw [if_neg ih]
      exact ih

lemma joinReach_mono (s t : Session) (h : JoinReach s t) :
    (∀ x, s.seat0 = some x → t.seat0 = some x) ∧
    (∀ x, s.seat1 = some x → t.seat1 = some x) := by
  induction h with
  | refl => exact ⟨fun _ hx => hx, fun _ hx => hx⟩
  | step t id _ ih =>
    constructor
    · intro x hx
      have h0 := ih.1 x hx
      by_cases hj : seatedIn t id = true
      · unfold eventsJoin
        rw [if_pos hj]
        exact h0
      · unfold eventsJoin
        rw [if_neg hj]
        show (if t.seat0 = none then some id else t.seat0) = some x
        rw [h0]
        rfl
    · intro x hx
      have h1 := ih.2 x hx
      by_cases hj : seatedIn t id = true
      · unfold eventsJoin
        rw [if_pos hj]
        exact h1
      · unfold eventsJoin
        rw [if_neg hj]
        show (if t.seat1 = none then some id else t.seat1) = some x
        rw [h1]
        rfl

/-- C9: seat assignment.  In every reachable session state (created via
the create route, which seats the creator in slot 0, then modified only
by the events route's seat-filling block) and for an identity not
already seated: slot 0 is always taken, so if slot 1 is free the
identity is seated in exactly that first (and only) unassigned slot; if
both slots are taken the join leaves the session unchanged and the
identity is never authorized to move (`indexOf` stays `-1`) in any
later state; and seats, once assigned, are never reassigned or cleared
by later joins. -/
theorem seat_assignment_first_free (s : Session) (hs : SessionReachable s)
    (id : String) (hns : seatedIn s id = false) :
    s.seat0 ≠ none ∧
    (s.seat1 = none →
      eventsJoin s id = { seat0 := s.seat0, seat1 := some id }) ∧
    (s.seat1 ≠ none →
      eventsJoin s id = s ∧
      ∀ t, JoinReach s t → sessionIndexOf t id = -1) ∧
    (∀ t, JoinReach s t →
      (∀ x, s.seat0 = some x → t.seat0 = some x) ∧
      (∀ x, s.seat1 = some x → t.seat1 = some x)) := by
  have h0 := reachable_seat0_some s hs
  have hnj : ¬seatedIn s id = true := by
    rw [hns]
    exact Bool.noConfusion
  have hseat : s.seat0 ≠ some id ∧ s.seat1 ≠ some id := by
    unfold seatedIn at hns
    constructor
    · intro hc
      rw [hc] at hns
      simp at hns
    · intro hc
      rw [hc] at hns
      simp at hns
  refine ⟨h0, ?_, ?_, fun t ht => joinReach_mono s t ht⟩
  · intro h1
    unfold eventsJoin
    rw [if_neg hnj, if_neg h0, if_pos h1]
  · intro h1
    have hjoin : eventsJoin s id = s := by
      unfold eventsJoin
      rw [if_neg hnj, if_neg h0, if_neg h1]
    refine ⟨hjoin, ?_⟩
    intro t ht
    obtain ⟨a, ha⟩ := Option.ne_none_iff_exists'.mp h0
    obtain ⟨b, hb⟩ := Option.ne_none_iff_exists'.mp h1
    have ht0 := (joinReach_mono s t ht).1 a ha
    have ht1 := (joinReach_mono s t ht).2 b hb
    unfold sessionIndexOf
    rw [if_neg, if_neg]
    · rw [ht1]
      intro hc
      injection hc with hc2
      exact hseat.2 (hc2 ▸ hb)
    · rw [ht0]
      intro hc
      injection hc with hc2
      exact hseat.1 (hc2 ▸ ha)

/-- C9 witness: concrete session with creator "a" and events-joiner
"b"; a third identity "c" is not seated and not authorized. -/
theorem seat_assignment_first_free_witness :
    eventsJoin (eventsJoin (createSession "a") "b") "c" =
        eventsJoin (createSession "a") "b" ∧
    sessionIndexOf (eventsJoin (createSession "a") "b") "c" = -1 := by
  have h := seat_assignment_first_free (eventsJoin (createSession "a") "b")
    (SessionReachable.join _ _ (SessionReachable.create "a")) "c" (by decide)
  have h2 := h.2.2.1 (by decide)
  exact ⟨h2.1, h2.2 _ (JoinReach.refl _)⟩
